import Mathlib

namespace MoneyMirror

/-!
Verification development for the money-mirror ingestion / dedup / enrichment
pipeline (cloud_function: data_processor.py, bigquery_manager.py,
gemini_enricher.py, file_processor.py, main.py).

Modelling conventions:
* Text handled character-wise (descriptions, category keys) is modelled as a
  list of Unicode code points (`Str`), so that the SQL functions UPPER and
  TRIM and the Python methods str.upper and str.strip become executable
  functions on lists.  File paths, file hashes, dbt tags and row hashes are
  only ever compared for equality, so they stay plain `String`.
* External collaborators (Cloud Storage, the BigQuery job service, dbt,
  the Gemini model, Python float parsing of strings) are parameters of an
  `Env` record; each is a function, which models the determinism of a single
  call site within one pipeline invocation.
* BigQuery tables are modelled as in-memory lists of rows; load jobs append.
  Row fields that no modelled query reads (amounts, dates, timestamps) are
  omitted from the row records.
-/

/-- Character-wise text: a list of Unicode code points. -/
abbrev Str := List Nat

/-- Code points of a Lean string literal, for writing concrete inputs. -/
def S (s : String) : Str := s.toList.map Char.toNat

/-- Whitespace test used by SQL TRIM and Python str.strip (space, tab, LF, CR). -/
def isWs (n : Nat) : Bool := decide (n = 32 ∨ n = 9 ∨ n = 10 ∨ n = 13)

/-- Upper-casing of one code point, as SQL UPPER and Python str.upper act on
ASCII letters: map a-z to A-Z, leave everything else alone. -/
def upperCode (n : Nat) : Nat := if 97 ≤ n ∧ n ≤ 122 then n - 32 else n

/-- SQL UPPER(s) and Python s.upper(). -/
def strUpper (s : Str) : Str := s.map upperCode

/-- Drop leading whitespace. -/
def trimLeft (s : Str) : Str := s.dropWhile isWs

/-- Drop trailing whitespace. -/
def trimRight (s : Str) : Str := (s.reverse.dropWhile isWs).reverse

/-- SQL TRIM(s) and Python s.strip(): drop whitespace at both ends. -/
def strTrim (s : Str) : Str := trimRight (trimLeft s)

/-- The key normalization applied by the SQL queries: UPPER(TRIM(x))
(bigquery_manager.py, get_uncategorized_descriptions). -/
def sqlNormalize (s : Str) : Str := strUpper (strTrim s)

/-- The key normalization applied by the classifier: desc.upper().strip()
(gemini_enricher.py, fallback records and parsed records). -/
def pyNormalize (s : Str) : Str := strTrim (strUpper s)

/-- Lexicographic comparison of code-point strings, as SQL ORDER BY compares
STRING values and as Python compares str keys. -/
def strLe : Str → Str → Bool
  | [], _ => true
  | _ :: _, [] => false
  | a :: as, b :: bs => if a < b then true else if b < a then false else strLe as bs

/-- The propositional form of strLe, used as the sorting relation. -/
def strPle (a b : Str) : Prop := strLe a b = true

instance : DecidableRel strPle := fun a b => inferInstanceAs (Decidable (strLe a b = true))

/-! ## Classifier (gemini_enricher.py)

The Gemini response is a string that the code fence-strips and feeds to
json.loads.  We model the composition of the external call, the fence
stripping and json.loads per chunk: `LLMResult.raises` is
model.generate_content raising, `LLMResult.response none` is a response whose
text json.loads rejects (malformed JSON), `LLMResult.response (some j)` is a
response that decodes to the JSON value j.  The LLM is a function of the
chunk, since the prompt is a function of the chunk and one run calls it once
per chunk.  Python float() applied to a decoded JSON string is the external
parameter strFloat (float() of a numeric literal string succeeds, otherwise
it raises ValueError, modelled by none). -/

/-- A decoded JSON value (the result of json.loads on the response text). -/
inductive Json where
  | null
  | bool (b : Bool)
  | num (q : Rat)
  | str (s : Str)
  | arr (elems : List Json)
  | obj (fields : List (Str × Json))

/-- The Python exceptions the parsing code can raise.  json.loads failures
are JSONDecodeError; float() raises ValueError on bad strings and TypeError
on None/lists/dicts; .get on a non-dict raises AttributeError. -/
inductive PyErr where
  | jsonDecode
  | keyErr
  | valueErr
  | typeErr
  | attrErr
deriving DecidableEq

/-- The except clause of _parse_gemini_response catches exactly
(json.JSONDecodeError, KeyError, ValueError). -/
def caughtByParse : PyErr → Bool
  | .jsonDecode => true
  | .keyErr => true
  | .valueErr => true
  | .typeErr => false
  | .attrErr => false

/-- Outcome of one generate_content call on a chunk, composed with fence
stripping and json.loads of the response text. -/
inductive LLMResult where
  | raises
  | response (decoded : Option Json)

/-- One classification record as the enricher returns it (the dict built in
_parse_gemini_response and in the fallback branches).  general_category and
detailed_category hold whatever JSON value the model returned under that key
(the string "Uncategorized" when the key is absent or on fallback). -/
structure CacheEntry where
  description_key : Str
  original_description : Str
  general_category : Json
  detailed_category : Json
  confidence_score : Rat
  gemini_model_version : String

/-- self.model_name in GeminiEnricher.__init__. -/
def modelName : String := "gemini-2.5-flash"

/-- The default category value, the Python string "Uncategorized". -/
def uncategorizedJson : Json := Json.str (S "Uncategorized")

/-- The fallback record built for one description in _categorize_batch and in
the except branch of _parse_gemini_response. -/
def fallbackEntry (desc : Str) : CacheEntry :=
  { description_key := pyNormalize desc
    original_description := desc
    general_category := uncategorizedJson
    detailed_category := uncategorizedJson
    confidence_score := 0
    gemini_model_version := modelName }

/-- One fallback record per description of a chunk. -/
def fallbackList (descs : List Str) : List CacheEntry := descs.map fallbackEntry

/-- Python dict.get k default on a decoded JSON object. -/
def jget (fields : List (Str × Json)) (k : Str) (dflt : Json) : Json :=
  match fields.find? (fun p => p.1 == k) with
  | some p => p.2
  | none => dflt

/-- Python float() on a decoded JSON value: numbers pass through, booleans
become 0/1, strings go through float parsing (ValueError on failure), and
None, lists and dicts raise TypeError. -/
def pyFloat (strFloat : Str → Option Rat) : Json → Except PyErr Rat
  | .num q => .ok q
  | .bool b => .ok (if b then 1 else 0)
  | .str s =>
    match strFloat s with
    | some q => .ok q
    | none => .error .valueErr
  | .null => .error .typeErr
  | .arr _ => .error .typeErr
  | .obj _ => .error .typeErr

/-- Python iteration over the decoded value, as enumerate(categorizations)
iterates: lists yield their elements, strings their characters, dicts their
keys; anything else raises TypeError (not iterable). -/
def jsonIter : Json → Except PyErr (List Json)
  | .arr xs => .ok xs
  | .str s => .ok (s.map fun c => Json.str [c])
  | .obj fields => .ok (fields.map fun p => Json.str p.1)
  | .null => .error .typeErr
  | .bool _ => .error .typeErr
  | .num _ => .error .typeErr

/-- The loop body of _parse_gemini_response over the pairs (descriptions[i],
categorizations[i]) for i below both lengths: each categorization must be a
dict (otherwise .get raises AttributeError); missing keys default to
"Uncategorized" and confidence 0.0; float() may raise. -/
def buildResults (strFloat : Str → Option Rat) :
    List (Str × Json) → Except PyErr (List CacheEntry)
  | [] => .ok []
  | (desc, cat) :: rest =>
    match cat with
    | .obj fields =>
      match pyFloat strFloat (jget fields (S "confidence_score") (Json.num 0)) with
      | .error e => .error e
      | .ok conf =>
        match buildResults strFloat rest with
        | .error e => .error e
        | .ok tail =>
          .ok ({ description_key := pyNormalize desc
                 original_description := desc
                 general_category := jget fields (S "general_category") uncategorizedJson
                 detailed_category := jget fields (S "detailed_category") uncategorizedJson
                 confidence_score := conf
                 gemini_model_version := modelName } :: tail)
    | _ => .error .attrErr

/-- The try block of _parse_gemini_response: json.loads (raising
JSONDecodeError on malformed text), then the result loop.  zip truncates at
the shorter list, mirroring the guard i < len(original_descriptions) and the
stop of enumerate(categorizations). -/
def parseAttempt (strFloat : Str → Option Rat) (decoded : Option Json) (descs : List Str) :
    Except PyErr (List CacheEntry) :=
  match decoded with
  | none => .error .jsonDecode
  | some j =>
    match jsonIter j with
    | .error e => .error e
    | .ok cats => buildResults strFloat (descs.zip cats)

/-- GeminiEnricher._parse_gemini_response: the try block plus the except
clause that turns JSONDecodeError, KeyError and ValueError into one fallback
record per description; other exceptions propagate. -/
def parse_gemini_response (strFloat : Str → Option Rat) (decoded : Option Json)
    (descs : List Str) : Except PyErr (List CacheEntry) :=
  match parseAttempt strFloat decoded descs with
  | .ok rs => .ok rs
  | .error e => if caughtByParse e then .ok (fallbackList descs) else .error e

/-- GeminiEnricher._categorize_batch: call the model, parse; the except
Exception clause turns any raised exception into one fallback record per
description of the chunk, so the function is total. -/
def categorize_batch (strFloat : Str → Option Rat) (llm : List Str → LLMResult)
    (descs : List Str) : List CacheEntry :=
  match llm descs with
  | .raises => fallbackList descs
  | .response decoded =>
    match parse_gemini_response strFloat decoded descs with
    | .ok rs => rs
    | .error _ => fallbackList descs

/-- Fuel-indexed chunking; with fuel at least the list length this yields the
slices descriptions[i:i+n] of the batching loop in categorize_descriptions. -/
def chunksFuel (n : Nat) : Nat → List α → List (List α)
  | _, [] => []
  | 0, _ :: _ => []
  | fuel + 1, a :: l => (a :: l).take n :: chunksFuel n fuel ((a :: l).drop n)

/-- batch_size in categorize_descriptions. -/
def batchSize : Nat := 20

/-- The batches descriptions[i:i+20] for i = 0, 20, 40, ... -/
def chunks20 (l : List α) : List (List α) := chunksFuel batchSize l.length l

/-- GeminiEnricher.categorize_descriptions: empty input short-circuits to [];
otherwise the chunk results are concatenated in order. -/
def categorize_descriptions (strFloat : Str → Option Rat) (llm : List Str → LLMResult)
    (descs : List Str) : List CacheEntry :=
  if descs.isEmpty then []
  else ((chunks20 descs).map (categorize_batch strFloat llm)).flatten

/-! ## Warehouse (bigquery_manager.py)

Tables are lists of rows.  Only the columns that the modelled queries read
are kept: file_hash and description for the raw tables, the full record for
the category cache, and the columns of dim_categories.  The two institution
raw tables raw_amex_transactions and raw_wealthsimple_transactions share one
row shape here because every modelled query reads the same columns of both. -/

/-- A row of a raw transactions table (raw_amex_transactions or
raw_wealthsimple_transactions).  description is NULLABLE in the schema. -/
structure RawRow where
  file_name : String
  file_hash : String
  description : Option Str
  row_hash : String
  is_processed : Bool
deriving DecidableEq

/-- A row of dim_description_categories (the category cache). -/
structure CacheRow where
  description_key : Str
  original_description : Str
  general_category : Json
  detailed_category : Json
  confidence_score : Rat
  gemini_model_version : String
  created_at : Nat
  updated_at : Nat

/-- A row of dim_categories (the taxonomy dimension table). -/
structure CategoryRow where
  category_id : String
  general_category : String
  detailed_category : String
  is_active : Bool
  created_at : Nat
deriving DecidableEq

/-- The dataset state: the four tables the pipeline touches. -/
structure DB where
  amexRows : List RawRow
  wsRows : List RawRow
  cache : List CacheRow
  categories : List CategoryRow

/-- The two accepted institutions. -/
inductive Institution where
  | amex
  | wealthsimple
deriving DecidableEq

/-- BigQueryManager.file_already_processed: COUNT(*) over the UNION ALL of
both raw tables restricted to the given file_hash, compared with 0. -/
def file_already_processed (db : DB) (file_hash : String) : Bool :=
  decide (0 < (db.amexRows.filter fun r => r.file_hash == file_hash).length
            + (db.wsRows.filter fun r => r.file_hash == file_hash).length)

/-- BigQueryManager.load_raw_data: append the rows to the institution table
(WRITE_APPEND) and report how many were loaded. -/
def load_raw_data (db : DB) (institution : Institution) (rows : List RawRow) : DB × Nat :=
  match institution with
  | .amex => ({ db with amexRows := db.amexRows ++ rows }, rows.length)
  | .wealthsimple => ({ db with wsRows := db.wsRows ++ rows }, rows.length)

/-- The all_descriptions CTE of get_uncategorized_descriptions:
SELECT DISTINCT UPPER(TRIM(description)) over the UNION ALL of both raw
tables WHERE description IS NOT NULL AND description != ''. -/
def gapCandidates (db : DB) : List Str :=
  ((((db.amexRows.map RawRow.description) ++ (db.wsRows.map RawRow.description)).filterMap id).filter
      (fun d => !(d == [])) |>.map sqlNormalize).dedup

/-- The LEFT JOIN of all_descriptions against dim_description_categories ON
description_key = UPPER(TRIM(dc.description_key)), keeping rows with no
match (dc.description_key IS NULL). -/
def gapUncached (db : DB) : List Str :=
  (gapCandidates db).filter fun k =>
    !(db.cache.any fun c => sqlNormalize c.description_key == k)

/-- BigQueryManager.get_uncategorized_descriptions: the unmatched keys,
ORDER BY description_key ascending, LIMIT 100. -/
def get_uncategorized_descriptions (db : DB) : List Str :=
  (List.insertionSort strPle (gapUncached db)).take 100

/-- BigQueryManager.update_category_cache: nothing to do on an empty input,
otherwise append one cache row per record (WRITE_APPEND, no key check),
stamping created_at and updated_at; returns the number of rows inserted. -/
def update_category_cache (now : Nat) (db : DB) (new_categories : List CacheEntry) :
    DB × Nat :=
  if new_categories.isEmpty then (db, 0)
  else
    let rows := new_categories.map fun c =>
      { description_key := c.description_key
        original_description := c.original_description
        general_category := c.general_category
        detailed_category := c.detailed_category
        confidence_score := c.confidence_score
        gemini_model_version := c.gemini_model_version
        created_at := now
        updated_at := now : CacheRow }
    ({ db with cache := db.cache ++ rows }, rows.length)

/-- BigQueryManager.delete_file_data: DELETE by file_hash from both raw
tables; returns the number of rows deleted. -/
def delete_file_data (db : DB) (file_hash : String) : DB × Nat :=
  let keptA := db.amexRows.filter fun r => !(r.file_hash == file_hash)
  let keptW := db.wsRows.filter fun r => !(r.file_hash == file_hash)
  ({ db with amexRows := keptA, wsRows := keptW },
    (db.amexRows.length - keptA.length) + (db.wsRows.length - keptW.length))

/-- Zero-padded numbering cat_001, cat_002, ... used by
initialize_categories (f-string {i+1:03d}). -/
def catId (n : Nat) : String :=
  "cat_" ++ (if n < 10 then "00" else if n < 100 then "0" else "") ++ toString n

/-- BigQueryManager.initialize_categories: if dim_categories already holds
any row the call returns without inserting; otherwise one row per taxonomy
pair is appended.  The Python function returns None; the model additionally
exposes how many rows the call inserted. -/
def initialize_categories (now : Nat) (db : DB) (categories_data : List (String × String)) :
    DB × Nat :=
  if 0 < db.categories.length then (db, 0)
  else
    let rows := categories_data.enum.map fun p =>
      { category_id := catId (p.1 + 1)
        general_category := p.2.1
        detailed_category := p.2.2
        is_active := true
        created_at := now : CategoryRow }
    ({ db with categories := db.categories ++ rows }, rows.length)

/-! ## HTTP boundary (main.py) -/

/-- The literal categories_data list of the init_categories handler in
main.py (61 taxonomy pairs). -/
def categories_data : List (String × String) :=
  [
    ("Groceries", "Supermarkets"),
    ("Groceries", "Convenience Stores"),
    ("Groceries", "Specialty Food Stores"),
    ("Dining & Restaurants", "Coffee Shops"),
    ("Dining & Restaurants", "Fast Food"),
    ("Dining & Restaurants", "Takeout & Delivery"),
    ("Dining & Restaurants", "Sit-down Restaurants"),
    ("Shopping", "Clothing"),
    ("Shopping", "Electronics"),
    ("Shopping", "Online Retail"),
    ("Shopping", "Department Stores"),
    ("Shopping", "Gifts"),
    ("Shopping", "Beauty & Cosmetics"),
    ("Personal Care", "Salons & Spas"),
    ("Personal Care", "Barbershops"),
    ("Personal Care", "Skincare & Grooming"),
    ("Housing & Utilities", "Rent / Mortgage"),
    ("Housing & Utilities", "Electricity"),
    ("Housing & Utilities", "Water"),
    ("Housing & Utilities", "Gas"),
    ("Housing & Utilities", "Internet"),
    ("Housing & Utilities", "Phone"),
    ("Housing & Utilities", "Trash & Recycling"),
    ("Housing & Utilities", "Home Supplies & Repairs"),
    ("Transportation", "Gas & Fuel"),
    ("Transportation", "Rideshare"),
    ("Transportation", "Public Transit"),
    ("Transportation", "Parking"),
    ("Transportation", "Tolls"),
    ("Transportation", "Vehicle Maintenance"),
    ("Transportation", "Car Insurance"),
    ("Financial", "Credit Card Payments"),
    ("Financial", "Bank Fees"),
    ("Financial", "Investments"),
    ("Financial", "Interest / Dividends"),
    ("Financial", "Loan Payments"),
    ("Financial", "RRSP/TFSA Contributions"),
    ("Health & Wellness", "Pharmacy"),
    ("Health & Wellness", "Medical & Dental"),
    ("Health & Wellness", "Health Insurance"),
    ("Health & Wellness", "Gym / Fitness"),
    ("Health & Wellness", "Sports"),
    ("Lifestyle & Entertainment", "Streaming Services"),
    ("Lifestyle & Entertainment", "Movies & Events"),
    ("Lifestyle & Entertainment", "Travel"),
    ("Lifestyle & Entertainment", "Airbnb"),
    ("Lifestyle & Entertainment", "Subscriptions & Hobbies"),
    ("Lifestyle & Entertainment", "Vacation Spending"),
    ("Education", "Tuition"),
    ("Education", "Online Courses"),
    ("Education", "Books & Materials"),
    ("Income & Transfers", "Salary / Paycheck"),
    ("Income & Transfers", "Cash Back / Rewards"),
    ("Income & Transfers", "Internal Transfers"),
    ("Income & Transfers", "Refunds & Reimbursements"),
    ("Work & Business", "Business Travel"),
    ("Work & Business", "Meals"),
    ("Work & Business", "Contractor Income"),
    ("Work & Business", "Software / Tools"),
    ("Uncategorized", "Uncategorized")
  ]

/-- The /init-categories handler: seeds dim_categories via
initialize_categories and reports "Initialized categories table with
{len(categories_data)} categories" — the reported number is the length of the
static list, independent of how many rows the call inserted.  The model
returns (new state, rows actually inserted, number reported). -/
def init_categories (now : Nat) (db : DB) : DB × Nat × Nat :=
  let r := initialize_categories now db categories_data
  (r.1, r.2, categories_data.length)

/-! ## Orchestrator (data_processor.py, file_processor.py)

process_files is modelled as a state transformer over DB that also returns a
trace of the external effects it performed and either the summary record or
the exception it re-raised.  The external world is an Env of functions:

* fileHash models FileProcessor.get_file_hash, the md5 digest of the bytes
  stored at the path (content-addressed, hence a function of the path while
  the bucket contents stand still across the runs being compared);
* parseRows models FileProcessor.parse_file followed by the load job of
  load_raw_data for that file: ok gives the parsed rows of the file (their
  description column and row_hash), error is any exception raised while
  parsing or loading (unsupported extension, missing columns, load failure),
  which process_files re-raises;
* dbtDeps / dbtRun model the subprocess runs of "dbt deps" and of
  "dbt run --select tag:T": check=True raises on a non-zero exit, modelled
  as error; ok carries the number of "Completed successfully" model lines
  counted from that run output;
* elapsed models the (end_time - start_time).total_seconds() measurement. -/

/-- A parsed row of one file before metadata stamping: the columns of it the
pipeline later reads. -/
structure ParsedRow where
  description : Option Str
  row_hash : String
deriving DecidableEq

/-- The external collaborators of one pipeline invocation. -/
structure Env where
  fileHash : String → String
  parseRows : String → Except String (List ParsedRow)
  dbtDeps : Except String Unit
  dbtRun : String → Except String Nat
  strFloat : Str → Option Rat
  llm : List Str → LLMResult
  now : Nat
  elapsed : Nat

/-- One external effect of a run, recorded in order. -/
inductive Effect where
  | load (path : String) (rows : Nat)
  | dbtCmd (tag : String)
  | gapQuery
  | llmCall (chunk : List Str)
  | cacheMerge (entries : Nat)
deriving DecidableEq

/-- The metadata stamping of FileProcessor.parse_file: every row of a file
carries the file name and the md5 hash of the file bytes. -/
def mkRawRow (path : String) (file_hash : String) (r : ParsedRow) : RawRow :=
  { file_name := path
    file_hash := file_hash
    description := r.description
    row_hash := r.row_hash
    is_processed := false }

/-- The per-selection loop of DataProcessor._run_dbt_models: run
"dbt run --select tag:t" for each tag in order, summing the model counts;
a failing run raises at once. -/
def runDbtList (env : Env) : List String → Except String Nat × List Effect
  | [] => (.ok 0, [])
  | t :: rest =>
    match env.dbtRun t with
    | .error e => (.error e, [.dbtCmd t])
    | .ok m =>
      match runDbtList env rest with
      | (.error e, tr) => (.error e, .dbtCmd t :: tr)
      | (.ok total, tr) => (.ok (m + total), .dbtCmd t :: tr)

/-- DataProcessor._run_dbt_models: "dbt deps" first (raising on failure),
then the selections. -/
def run_dbt_models (env : Env) (selections : List String) : Except String Nat × List Effect :=
  match env.dbtDeps with
  | .error e => (.error e, [])
  | .ok _ => runDbtList env selections

/-- DataProcessor._process_and_load_files: parse each file and append its
rows to the institution raw table, accumulating the inserted row count; the
first exception stops the loop and propagates, leaving the rows already
appended in place (no rollback). -/
def loadPhase (env : Env) (institution : Institution) :
    DB → List String → Except String Nat × DB × List Effect
  | db, [] => (.ok 0, db, [])
  | db, p :: rest =>
    match env.parseRows p with
    | .error e => (.error e, db, [])
    | .ok rows =>
      let loaded := load_raw_data db institution (rows.map (mkRawRow p (env.fileHash p)))
      match loadPhase env institution loaded.1 rest with
      | (.error e, db2, tr) => (.error e, db2, .load p loaded.2 :: tr)
      | (.ok n, db2, tr) => (.ok (loaded.2 + n), db2, .load p loaded.2 :: tr)

/-- The summary record process_files returns (ProcessingResult). -/
structure PResult where
  files_processed : Nat
  rows_inserted : Nat
  new_categories : Nat
  dbt_models_built : Nat
  processing_time_seconds : Nat
deriving DecidableEq

/-- The initial result dict of process_files: all fields zero. -/
def zeroResult : PResult :=
  { files_processed := 0, rows_inserted := 0, new_categories := 0
    dbt_models_built := 0, processing_time_seconds := 0 }

/-- What one invocation of process_files produces: the returned record or
the re-raised exception, the durable state it leaves behind, and the trace
of external effects it performed. -/
structure Outcome where
  res : Except String PResult
  db : DB
  trace : List Effect

/-- DataProcessor._filter_files_for_processing: with force_reprocess the list
passes through, otherwise files whose content hash is already in a raw table
are dropped. -/
def filterFiles (env : Env) (db : DB) (file_paths : List String) (force_reprocess : Bool) :
    List String :=
  if force_reprocess then file_paths
  else file_paths.filter fun p => !(file_already_processed db (env.fileHash p))

/-- Steps 4 to 5 of process_files: query the gap; when it is non-empty,
classify it and merge the results into the cache (update_category_cache
loads nothing when the classifier returned no records). -/
def enrichPhase (env : Env) (db : DB) : DB × Nat × List Effect :=
  let uncategorized := get_uncategorized_descriptions db
  if uncategorized.isEmpty then (db, 0, [.gapQuery])
  else
    let new_categories := categorize_descriptions env.strFloat env.llm uncategorized
    let merged := update_category_cache env.now db new_categories
    let mergeTrace := if new_categories.isEmpty then [] else [Effect.cacheMerge new_categories.length]
    (merged.1, new_categories.length,
      .gapQuery :: (chunks20 uncategorized).map Effect.llmCall ++ mergeTrace)

/-- DataProcessor.process_files: filter, load, staging transform, gap query,
classification and merge, final transform.  Exceptions from loading or from
either dbt step are logged and re-raised (the except clause of the method);
classification never raises.  An empty filtered list short-circuits to the
all-zero record before any external work. -/
def process_files (env : Env) (db : DB) (institution : Institution)
    (file_paths : List String) (force_reprocess : Bool) : Outcome :=
  let files_to_process := filterFiles env db file_paths force_reprocess
  if files_to_process.isEmpty then { res := .ok zeroResult, db := db, trace := [] }
  else
    match loadPhase env institution db files_to_process with
    | (.error e, db1, tr1) => { res := .error e, db := db1, trace := tr1 }
    | (.ok rows_inserted, db1, tr1) =>
      match run_dbt_models env ["staging"] with
      | (.error e, tr2) => { res := .error e, db := db1, trace := tr1 ++ tr2 }
      | (.ok _, tr2) =>
        let enriched := enrichPhase env db1
        match run_dbt_models env ["intermediate", "marts"] with
        | (.error e, tr4) =>
          { res := .error e, db := enriched.1, trace := tr1 ++ tr2 ++ enriched.2.2 ++ tr4 }
        | (.ok models_built, tr4) =>
          { res := .ok { files_processed := files_to_process.length
                         rows_inserted := rows_inserted
                         new_categories := enriched.2.1
                         dbt_models_built := models_built
                         processing_time_seconds := env.elapsed }
            db := enriched.1
            trace := tr1 ++ tr2 ++ enriched.2.2 ++ tr4 }


/-! ## Row fingerprint (file_processor.py)

parse_file computes row_hash = md5(str(sorted(row.items())).encode()).  A
parsed row appears here as its items, field name / serialized value pairs;
the keys of one dict are distinct, so Python tuple comparison inside
sorted() and the total order below agree on every comparison sorted()
makes.  str, encode and md5 are deterministic external serialization and
digest steps, modelled together as one abstract digest function applied to
the sorted items. -/

/-- Python tuple comparison (k1, v1) <= (k2, v2) on pairs of strings. -/
def pairLe (a b : Str × Str) : Bool :=
  if a.1 = b.1 then strLe a.2 b.2 else strLe a.1 b.1

/-- The propositional form of pairLe, used as the sorting relation. -/
def pairPle (a b : Str × Str) : Prop := pairLe a b = true

instance : DecidableRel pairPle := fun a b => inferInstanceAs (Decidable (pairLe a b = true))

/-- sorted(row.items()) in parse_file: the canonical ordering of the row
items (Python sorted output is characterized by being sorted and a
permutation of the input, which under a total antisymmetric order pins down
one list). -/
def row_content (row : List (Str × Str)) : List (Str × Str) :=
  List.insertionSort pairPle row

/-- row_hash in parse_file: digest models md5(str(...).encode()), a
deterministic function of the sorted items. -/
def row_hash (digest : List (Str × Str) → String) (row : List (Str × Str)) : String :=
  digest (row_content row)

/-- A concrete digest for witnesses. -/
def witnessDigest : List (Str × Str) → String := fun l => toString l.length

/-- A parsed amex row, items in file column order. -/
def amexItemsA : List (Str × Str) :=
  [(S "date", S "2024-01-01"), (S "description", S "UBER"), (S "amount", S "12.5")]

/-- The same row with its items produced in another order. -/
def amexItemsB : List (Str × Str) :=
  [(S "description", S "UBER"), (S "amount", S "12.5"), (S "date", S "2024-01-01")]


/-- The concrete state of the gap-correctness example: raw descriptions
UBER, "uber " and STARBUCKS, and a cache already holding UBER. -/
def gapExampleDB : DB :=
  { amexRows :=
      [ { file_name := "a.csv", file_hash := "h1", description := some (S "UBER")
          row_hash := "r1", is_processed := false }
      , { file_name := "a.csv", file_hash := "h1", description := some (S "uber ")
          row_hash := "r2", is_processed := false }
      , { file_name := "a.csv", file_hash := "h1", description := some (S "STARBUCKS")
          row_hash := "r3", is_processed := false } ]
    wsRows := []
    cache :=
      [ { description_key := S "UBER", original_description := S "UBER"
          general_category := Json.str (S "Transportation")
          detailed_category := Json.str (S "Rideshare")
          confidence_score := 9 / 10, gemini_model_version := "gemini-2.5-flash"
          created_at := 0, updated_at := 0 } ]
    categories := [] }


/-- A model for witnesses: every generate_content call raises. -/
def witnessLLMRaises : List Str → LLMResult := fun _ => .raises

/-- A float-string parser for witnesses (no string parses). -/
def witnessStrFloat : Str → Option Rat := fun _ => none

/-- An LLM whose every response decodes to the well-formed empty JSON
array. -/
def shortArrayLLM : List Str → LLMResult := fun _ => .response (some (Json.arr []))


/-- The empty dataset. -/
def emptyDB : DB := { amexRows := [], wsRows := [], cache := [], categories := [] }

/-- The dataset after one successful taxonomy seeding. -/
def seededDB : DB := (init_categories 0 emptyDB).1

/-- An environment for witnesses: one file at hash h1, parsing to no rows,
dbt succeeding, the LLM raising. -/
def witnessEnv : Env :=
  { fileHash := fun _ => "h1"
    parseRows := fun _ => .ok []
    dbtDeps := .ok ()
    dbtRun := fun _ => .ok 1
    strFloat := fun _ => none
    llm := fun _ => .raises
    now := 0
    elapsed := 5 }

/-- A dataset that already ingested the file with hash h1. -/
def ingestedDB : DB :=
  { amexRows :=
      [ { file_name := "a.csv", file_hash := "h1", description := some (S "UBER")
          row_hash := "r1", is_processed := false } ]
    wsRows := [], cache := [], categories := [] }


/-- An environment whose one file parses to a single UBER row. -/
def oneRowEnv : Env :=
  { fileHash := fun _ => "h2"
    parseRows := fun _ => .ok [{ description := some (S "UBER"), row_hash := "r1" }]
    dbtDeps := .ok ()
    dbtRun := fun _ => .ok 1
    strFloat := fun _ => none
    llm := fun _ => .raises
    now := 7
    elapsed := 3 }


/-- The cache-key uniqueness invariant: at most one cache entry per
DescriptionKey, where an entry stands for the normalized form of its stored
key (the form the gap query joins on). -/
def cacheKeysNodup (db : DB) : Prop :=
  (db.cache.map fun c => sqlNormalize c.description_key).Nodup

/-! ## Theorems -/

theorem upperCode_idem (n : Nat) : upperCode (upperCode n) = upperCode n := by
  unfold upperCode
  by_cases h : 97 ≤ n ∧ n ≤ 122
  · rw [if_pos h, if_neg (by omega)]
  · rw [if_neg h, if_neg h]

theorem isWs_upperCode (n : Nat) : isWs (upperCode n) = isWs n := by
  unfold upperCode isWs
  by_cases h : 97 ≤ n ∧ n ≤ 122
  · rw [if_pos h, decide_eq_decide]
    omega
  · rw [if_neg h]

theorem strUpper_strUpper (s : Str) : strUpper (strUpper s) = strUpper s := by
  unfold strUpper
  rw [List.map_map]
  exact List.map_congr_left fun n _ => upperCode_idem n

theorem dropWhile_congr_fun {p q : α → Bool} (h : ∀ a, p a = q a) :
    ∀ l : List α, l.dropWhile p = l.dropWhile q := by
  intro l
  induction l with
  | nil => rfl
  | cons a t ih => simp only [List.dropWhile_cons, h a]; split <;> simp [ih]

theorem dropWhile_idem (p : α → Bool) (l : List α) :
    (l.dropWhile p).dropWhile p = l.dropWhile p := by
  induction l with
  | nil => rfl
  | cons a t ih =>
    by_cases h : p a = true
    · simpa [List.dropWhile_cons, h] using ih
    · simp [List.dropWhile_cons, h]

theorem dropWhile_head_not {p : α → Bool} :
    ∀ {l : List α} {a : α} {t : List α}, l.dropWhile p = a :: t → p a = false := by
  intro l
  induction l with
  | nil => intro a t h; simp [List.dropWhile] at h
  | cons b u ih =>
    intro a t h
    by_cases hb : p b = true
    · exact ih (by simpa [List.dropWhile_cons, hb] using h)
    · rw [List.dropWhile_cons, if_neg (by simp [hb])] at h
      cases h
      simpa using hb

theorem dropWhile_suffix_decomp (p : α → Bool) (l : List α) :
    ∃ r, r ++ l.dropWhile p = l := by
  induction l with
  | nil => exact ⟨[], rfl⟩
  | cons a t ih =>
    by_cases h : p a = true
    · obtain ⟨r, hr⟩ := ih
      exact ⟨a :: r, by simp [List.dropWhile_cons, h, hr]⟩
    · exact ⟨[], by simp [List.dropWhile_cons, h]⟩

theorem trimLeft_upper_comm (s : Str) : trimLeft (strUpper s) = strUpper (trimLeft s) := by
  unfold trimLeft strUpper
  rw [List.dropWhile_map]
  congr 1
  exact dropWhile_congr_fun (fun n => by simpa using isWs_upperCode n) s

theorem trimRight_upper_comm (s : Str) : trimRight (strUpper s) = strUpper (trimRight s) := by
  unfold trimRight strUpper
  rw [← List.map_reverse, List.dropWhile_map, ← List.map_reverse]
  congr 2
  exact dropWhile_congr_fun (fun n => by simpa using isWs_upperCode n) s.reverse

theorem strTrim_upper_comm (s : Str) : strTrim (strUpper s) = strUpper (strTrim s) := by
  unfold strTrim
  rw [trimLeft_upper_comm, trimRight_upper_comm]

theorem trimLeft_idem (s : Str) : trimLeft (trimLeft s) = trimLeft s :=
  dropWhile_idem isWs s

theorem trimRight_idem (s : Str) : trimRight (trimRight s) = trimRight s := by
  unfold trimRight
  rw [List.reverse_reverse, dropWhile_idem]

/-- trimRight only removes a suffix: its output is a prefix of its input. -/
theorem trimRight_prefix_decomp (s : Str) : ∃ r, trimRight s ++ r = s := by
  obtain ⟨r, hr⟩ := dropWhile_suffix_decomp isWs s.reverse
  refine ⟨r.reverse, ?_⟩
  have := congrArg List.reverse hr
  simpa [trimRight] using this

theorem trimLeft_of_head_not_ws :
    ∀ {s : Str}, (∀ a t, s = a :: t → isWs a = false) → trimLeft s = s := by
  intro s h
  cases s with
  | nil => rfl
  | cons a t => simp [trimLeft, List.dropWhile_cons, h a t rfl]

theorem trimLeft_trimRight_trimLeft (s : Str) :
    trimLeft (trimRight (trimLeft s)) = trimRight (trimLeft s) := by
  apply trimLeft_of_head_not_ws
  intro a t h
  obtain ⟨r, hr⟩ := trimRight_prefix_decomp (trimLeft s)
  have : trimLeft s = a :: (t ++ r) := by rw [← hr, h]; simp
  exact dropWhile_head_not this

theorem strTrim_idem (s : Str) : strTrim (strTrim s) = strTrim s := by
  unfold strTrim
  rw [trimLeft_trimRight_trimLeft, trimRight_idem]

/-- A SQL-normalized key is a fixed point of the classifier normalization:
upper-then-strip leaves UPPER(TRIM(d)) unchanged. -/
theorem pyNormalize_sqlNormalize (d : Str) :
    pyNormalize (sqlNormalize d) = sqlNormalize d := by
  unfold pyNormalize sqlNormalize
  rw [strUpper_strUpper, strTrim_upper_comm, strTrim_idem]

/-- SQL key normalization is idempotent. -/
theorem sqlNormalize_idem (d : Str) :
    sqlNormalize (sqlNormalize d) = sqlNormalize d := by
  unfold sqlNormalize
  rw [strTrim_upper_comm, strUpper_strUpper, strTrim_idem]

theorem strLe_total : ∀ a b : Str, strLe a b = true ∨ strLe b a = true := by
  intro a
  induction a with
  | nil => intro b; left; rfl
  | cons x xs ih =>
    intro b
    cases b with
    | nil => right; rfl
    | cons y ys =>
      by_cases hxy : x < y
      · left; simp [strLe, hxy]
      · by_cases hyx : y < x
        · right; simp [strLe, hyx]
        · have he : x = y := Nat.le_antisymm (Nat.not_lt.mp hyx) (Nat.not_lt.mp hxy)
          subst he
          rcases ih ys with h | h
          · left; simp [strLe, h]
          · right; simp [strLe, h]

theorem strLe_antisymm : ∀ {a b : Str}, strLe a b = true → strLe b a = true → a = b := by
  intro a
  induction a with
  | nil =>
    intro b _ hba
    cases b with
    | nil => rfl
    | cons y ys => simp [strLe] at hba
  | cons x xs ih =>
    intro b hab hba
    cases b with
    | nil => simp [strLe] at hab
    | cons y ys =>
      by_cases hxy : x < y
      · simp [strLe, hxy, Nat.not_lt.mpr (Nat.le_of_lt hxy), Nat.ne_of_gt hxy] at hba
      · by_cases hyx : y < x
        · simp [strLe, hyx, Nat.not_lt.mpr (Nat.le_of_lt hyx), Nat.ne_of_gt hyx] at hab
        · have he : x = y := Nat.le_antisymm (Nat.not_lt.mp hyx) (Nat.not_lt.mp hxy)
          subst he
          simp only [strLe, if_neg hxy, if_neg hyx] at hab hba
          rw [ih hab hba]

theorem strLe_trans : ∀ {a b c : Str}, strLe a b = true → strLe b c = true → strLe a c = true := by
  intro a
  induction a with
  | nil => intro b c _ _; rfl
  | cons x xs ih =>
    intro b c hab hbc
    cases b with
    | nil => simp [strLe] at hab
    | cons y ys =>
      cases c with
      | nil => simp [strLe] at hbc
      | cons z zs =>
        simp only [strLe] at hab hbc ⊢
        by_cases hxy : x < y
        · by_cases hyz : y < z
          · rw [if_pos (Nat.lt_trans hxy hyz)]
          · by_cases hzy : z < y
            · simp [hyz, hzy] at hbc
            · have : y = z := Nat.le_antisymm (Nat.not_lt.mp hzy) (Nat.not_lt.mp hyz)
              subst this
              rw [if_pos hxy]
        · by_cases hyx : y < x
          · simp [hxy, hyx] at hab
          · have : x = y := Nat.le_antisymm (Nat.not_lt.mp hyx) (Nat.not_lt.mp hxy)
            subst this
            rw [if_neg hxy, if_neg hyx] at hab
            by_cases hyz : x < z
            · rw [if_pos hyz]
            · by_cases hzy : z < x
              · simp [hyz, hzy] at hbc
              · have : x = z := Nat.le_antisymm (Nat.not_lt.mp hzy) (Nat.not_lt.mp hyz)
                subst this
                rw [if_neg hyz, if_neg hzy] at hbc ⊢
                exact ih hab hbc

instance : IsTotal Str strPle := ⟨fun a b => strLe_total a b⟩

instance : IsTrans Str strPle := ⟨fun _ _ _ => strLe_trans⟩

instance : IsAntisymm Str strPle := ⟨fun _ _ => strLe_antisymm⟩

theorem chunksFuel_join (n : Nat) (hn : 0 < n) :
    ∀ (fuel : Nat) (l : List α), l.length ≤ fuel → (chunksFuel n fuel l).flatten = l := by
  intro fuel
  induction fuel with
  | zero =>
    intro l hl
    cases l with
    | nil => rfl
    | cons a t => simp at hl
  | succ f ih =>
    intro l hl
    cases l with
    | nil => rfl
    | cons a t =>
      have hn1 : 1 ≤ n := hn
      have hdrop : ((a :: t).drop n).length ≤ f := by
        simp only [List.length_drop, List.length_cons]
        simp only [List.length_cons] at hl
        omega
      simp only [chunksFuel, List.flatten_cons, ih _ hdrop, List.take_append_drop]

theorem chunks20_join (l : List α) : (chunks20 l).flatten = l :=
  chunksFuel_join batchSize (by decide) l.length l le_rfl

instance : IsTotal (Str × Str) pairPle := ⟨by
  intro a b
  unfold pairPle pairLe
  by_cases h : a.1 = b.1
  · rw [if_pos h, if_pos h.symm]
    exact strLe_total a.2 b.2
  · rw [if_neg h, if_neg fun e => h e.symm]
    exact strLe_total a.1 b.1⟩

instance : IsTrans (Str × Str) pairPle := ⟨by
  intro a b c hab hbc
  unfold pairPle pairLe at *
  by_cases h1 : a.1 = b.1 <;> by_cases h2 : b.1 = c.1
  · rw [if_pos h1] at hab
    rw [if_pos h2] at hbc
    rw [if_pos (h1.trans h2)]
    exact strLe_trans hab hbc
  · rw [if_pos h1] at hab
    rw [if_neg h2] at hbc
    rw [if_neg fun e => h2 (h1.symm.trans e), h1]
    exact hbc
  · rw [if_neg h1] at hab
    rw [if_pos h2] at hbc
    rw [if_neg fun e => h1 (e.trans h2.symm), ← h2]
    exact hab
  · rw [if_neg h1] at hab
    rw [if_neg h2] at hbc
    by_cases h3 : a.1 = c.1
    · rw [← h3] at hbc
      exact absurd (strLe_antisymm hab hbc) h1
    · rw [if_neg h3]
      exact strLe_trans hab hbc⟩

instance : IsAntisymm (Str × Str) pairPle := ⟨by
  intro a b hab hba
  unfold pairPle pairLe at *
  by_cases h : a.1 = b.1
  · rw [if_pos h] at hab
    rw [if_pos h.symm] at hba
    exact Prod.ext h (strLe_antisymm hab hba)
  · rw [if_neg h] at hab
    rw [if_neg fun e => h e.symm] at hba
    exact absurd (strLe_antisymm hab hba) h⟩

/-- Claim C9: for every two parsed rows holding the same field-name-to-value
mapping — the same items, produced by the adapter in a possibly different
order — the computed row_hash is identical, because the hash is taken over
the row items serialized in sorted-key order. -/
theorem row_hash_order_independent (digest : List (Str × Str) → String)
    (r1 r2 : List (Str × Str)) (h : r1.Perm r2) :
    row_hash digest r1 = row_hash digest r2 := by
  unfold row_hash row_content
  congr 1
  exact List.eq_of_perm_of_sorted
    ((List.perm_insertionSort pairPle r1).trans (h.trans (List.perm_insertionSort pairPle r2).symm))
    (List.sorted_insertionSort pairPle r1) (List.sorted_insertionSort pairPle r2)

/-- Witness for C9: a concrete three-field row hashed equal under two
production orders. -/
theorem row_hash_order_independent_witness :
    amexItemsA.Perm amexItemsB ∧
      row_hash witnessDigest amexItemsA = row_hash witnessDigest amexItemsB :=
  ⟨by decide, row_hash_order_independent witnessDigest amexItemsA amexItemsB (by decide)⟩

/-- The dedup probe in terms of row membership: the COUNT over the UNION
ALL of both raw tables is positive exactly when a matching row exists. -/
theorem mem_file_already_processed (db : DB) (fh : String) :
    file_already_processed db fh = true ↔
      (∃ r ∈ db.amexRows, r.file_hash = fh) ∨ (∃ r ∈ db.wsRows, r.file_hash = fh) := by
  unfold file_already_processed
  rw [decide_eq_true_iff]
  have key : ∀ l : List RawRow,
      0 < (l.filter fun r => r.file_hash == fh).length ↔ ∃ r ∈ l, r.file_hash = fh := by
    intro l
    rw [List.length_pos_iff_exists_mem]
    constructor
    · rintro ⟨r, hr⟩
      rw [List.mem_filter] at hr
      exact ⟨r, hr.1, by simpa using hr.2⟩
    · rintro ⟨r, hm, he⟩
      exact ⟨r, List.mem_filter.mpr ⟨hm, by simpa using he⟩⟩
  constructor
  · intro hp
    rcases Nat.lt_or_ge 0 ((db.amexRows.filter fun r => r.file_hash == fh).length) with ha | ha
    · exact Or.inl ((key _).mp ha)
    · exact Or.inr ((key _).mp (by omega))
  · rintro (h | h)
    · have := (key _).mpr h
      omega
    · have := (key _).mpr h
      omega

/-- Claim C6: file_already_processed answers true exactly when some row of
either institution raw table carries the fingerprint, so a file ingested
under one institution is detected when re-submitted under the other. -/
theorem file_already_processed_iff (db : DB) (fh : String) :
    file_already_processed db fh = true ↔
      (∃ r ∈ db.amexRows, r.file_hash = fh) ∨ (∃ r ∈ db.wsRows, r.file_hash = fh) :=
  mem_file_already_processed db fh

/-- Membership in the unmatched-gap list, before ordering and the LIMIT:
exactly the normalized keys of some non-null, non-empty raw description
that no cache row normalizes to. -/
theorem mem_gapUncached {db : DB} {k : Str} :
    k ∈ gapUncached db ↔
      ((∃ r d, (r ∈ db.amexRows ∨ r ∈ db.wsRows) ∧ r.description = some d ∧ d ≠ [] ∧
          sqlNormalize d = k) ∧
        ∀ c ∈ db.cache, sqlNormalize c.description_key ≠ k) := by
  unfold gapUncached gapCandidates
  rw [List.mem_filter, List.mem_dedup]
  constructor
  · rintro ⟨hmem, hpred⟩
    rw [List.mem_map] at hmem
    obtain ⟨d, hd, hk⟩ := hmem
    rw [List.mem_filter] at hd
    obtain ⟨hd1, hd2⟩ := hd
    rw [List.mem_filterMap] at hd1
    obtain ⟨od, hod, hid⟩ := hd1
    cases od with
    | none => cases hid
    | some d0 =>
      cases hid
      rw [List.mem_append] at hod
      refine ⟨?_, ?_⟩
      · rcases hod with hod | hod
        · obtain ⟨r, hr, hrd⟩ := List.mem_map.mp hod
          exact ⟨r, d, Or.inl hr, hrd, by simpa using hd2, hk⟩
        · obtain ⟨r, hr, hrd⟩ := List.mem_map.mp hod
          exact ⟨r, d, Or.inr hr, hrd, by simpa using hd2, hk⟩
      · intro c hc he
        have : db.cache.any (fun c => sqlNormalize c.description_key == k) = true :=
          List.any_eq_true.mpr ⟨c, hc, by simpa using he⟩
        simp [this] at hpred
  · rintro ⟨⟨r, d, hr, hrd, hdne, hk⟩, hcache⟩
    constructor
    · rw [List.mem_map]
      refine ⟨d, ?_, hk⟩
      rw [List.mem_filter]
      refine ⟨?_, by simpa using hdne⟩
      rw [List.mem_filterMap]
      refine ⟨some d, ?_, rfl⟩
      rw [List.mem_append]
      rcases hr with hr | hr
      · exact Or.inl (List.mem_map.mpr ⟨r, hr, hrd⟩)
      · exact Or.inr (List.mem_map.mpr ⟨r, hr, hrd⟩)
    · rw [Bool.not_eq_eq_eq_not, Bool.not_true, List.any_eq_false]
      intro c hc
      simpa using hcache c hc

/-- Claim C3: for every state of the raw tables and the category cache,
get_uncategorized_descriptions returns distinct keys in ascending lexical
order, at most 100 of them, each the UPPER(TRIM(.)) of some non-null,
non-empty raw description of either institution and matched by no cache
entry under the same normalization; when no more than 100 keys qualify,
every qualifying key is returned.  On raw descriptions UBER, "uber " and
STARBUCKS with UBER already cached, it returns exactly [STARBUCKS]. -/
theorem gap_query_correct :
    (∀ db : DB,
      List.Sorted strPle (get_uncategorized_descriptions db) ∧
      (get_uncategorized_descriptions db).Nodup ∧
      (get_uncategorized_descriptions db).length ≤ 100 ∧
      (∀ k ∈ get_uncategorized_descriptions db,
        (∃ r d, (r ∈ db.amexRows ∨ r ∈ db.wsRows) ∧ r.description = some d ∧ d ≠ [] ∧
            sqlNormalize d = k) ∧
          ∀ c ∈ db.cache, sqlNormalize c.description_key ≠ k) ∧
      ((gapUncached db).length ≤ 100 →
        ∀ k, ((∃ r d, (r ∈ db.amexRows ∨ r ∈ db.wsRows) ∧ r.description = some d ∧ d ≠ [] ∧
            sqlNormalize d = k) ∧
          ∀ c ∈ db.cache, sqlNormalize c.description_key ≠ k) →
          k ∈ get_uncategorized_descriptions db)) ∧
    get_uncategorized_descriptions gapExampleDB = [S "STARBUCKS"] := by
  constructor
  · intro db
    have hsorted : List.Sorted strPle (List.insertionSort strPle (gapUncached db)) :=
      List.sorted_insertionSort strPle (gapUncached db)
    have hperm := List.perm_insertionSort strPle (gapUncached db)
    have hnodupU : (gapUncached db).Nodup := (List.nodup_dedup _).filter _
    refine ⟨?_, ?_, ?_, ?_, ?_⟩
    · exact List.Pairwise.sublist (List.take_sublist 100 _) hsorted
    · exact (List.take_sublist 100 _).nodup (hperm.symm.nodup hnodupU)
    · exact List.length_take_le 100 _
    · intro k hk
      have hmem : k ∈ gapUncached db :=
        hperm.mem_iff.mp ((List.take_sublist 100 _).subset hk)
      exact mem_gapUncached.mp hmem
    · intro hlen k hk
      have hmem : k ∈ List.insertionSort strPle (gapUncached db) :=
        hperm.mem_iff.mpr (mem_gapUncached.mpr hk)
      have hle : (List.insertionSort strPle (gapUncached db)).length ≤ 100 := by
        rw [hperm.length_eq]
        exact hlen
      rw [get_uncategorized_descriptions, List.take_of_length_le hle]
      exact hmem
  · decide

/-- A chunk whose LLM call raises, or whose response parsing raises any
exception, comes back as the full fallback list: the caught exceptions
produce it inside _parse_gemini_response, the uncaught ones and the call
failure produce it in the except clause of _categorize_batch. -/
theorem batch_fallback_of_error (strFloat : Str → Option Rat) (llm : List Str → LLMResult)
    (descs : List Str)
    (h : llm descs = .raises ∨
      ∃ dec e, llm descs = .response dec ∧ parseAttempt strFloat dec descs = .error e) :
    categorize_batch strFloat llm descs = fallbackList descs := by
  rcases h with h | ⟨dec, e, hdec, herr⟩
  · unfold categorize_batch
    rw [h]
  · have hp : parse_gemini_response strFloat dec descs = Except.ok (fallbackList descs) ∨
        parse_gemini_response strFloat dec descs = Except.error e := by
      unfold parse_gemini_response
      rw [herr]
      cases hc : caughtByParse e
      · right
        simp [hc]
      · left
        simp [hc]
    unfold categorize_batch
    rw [hdec]
    rcases hp with hp | hp <;> simp [hp]

/-- Claim C2: whenever the LLM call for a chunk raises, or the parsing of
its response raises any exception, _categorize_batch returns one fallback
record per description of the chunk — Uncategorized/Uncategorized with
confidence 0.0 — and, being a total function into lists, propagates no
exception, so classification failure alone never fails the run. -/
theorem categorize_batch_absorbs_failures (strFloat : Str → Option Rat)
    (llm : List Str → LLMResult) (descs : List Str)
    (h : llm descs = .raises ∨
      ∃ dec e, llm descs = .response dec ∧ parseAttempt strFloat dec descs = .error e) :
    categorize_batch strFloat llm descs = fallbackList descs ∧
      (categorize_batch strFloat llm descs).length = descs.length ∧
      ∀ en ∈ categorize_batch strFloat llm descs,
        en.general_category = uncategorizedJson ∧ en.detailed_category = uncategorizedJson ∧
          en.confidence_score = 0 := by
  have hmain := batch_fallback_of_error strFloat llm descs h
  refine ⟨hmain, ?_, ?_⟩
  · rw [hmain]
    exact List.length_map descs fallbackEntry
  · intro en hen
    rw [hmain] at hen
    obtain ⟨d, _, rfl⟩ := List.mem_map.mp hen
    exact ⟨rfl, rfl, rfl⟩

/-- Witness for C2: a raising call on a concrete one-description chunk. -/
theorem categorize_batch_absorbs_failures_witness :
    categorize_batch witnessStrFloat witnessLLMRaises [S "UBER EATS"] =
        fallbackList [S "UBER EATS"] ∧
      (categorize_batch witnessStrFloat witnessLLMRaises [S "UBER EATS"]).length =
        [S "UBER EATS"].length ∧
      ∀ en ∈ categorize_batch witnessStrFloat witnessLLMRaises [S "UBER EATS"],
        en.general_category = uncategorizedJson ∧ en.detailed_category = uncategorizedJson ∧
          en.confidence_score = 0 :=
  categorize_batch_absorbs_failures witnessStrFloat witnessLLMRaises [S "UBER EATS"]
    (Or.inl rfl)

/-- Counterexample to claim C1 as stated: with one input description and a
chunk response that is the well-formed JSON array [] (neither a raised call
nor malformed JSON), categorize_descriptions returns 0 records, not 1 — the
matched prefix is empty and the trailing description is dropped. -/
theorem categorize_drops_trailing_on_short_array :
    [S "STARBUCKS"].length = 1 ∧
      (categorize_descriptions witnessStrFloat shortArrayLLM [S "STARBUCKS"]).length = 0 :=
  ⟨rfl, rfl⟩

/-- Claim C1 (amended): for every input sequence of N descriptions, when
each chunk's LLM call raises or its response is malformed JSON,
categorize_descriptions returns exactly N records, in input order, each the
Uncategorized/Uncategorized fallback with confidence 0.0.  The unqualified
claim fails: a response that parses as a JSON array shorter than its chunk
yields only the matched prefix (trailing descriptions are dropped), so
fewer than N records come back. -/
theorem categorize_total_coverage_on_failures (strFloat : Str → Option Rat)
    (llm : List Str → LLMResult) (descs : List Str)
    (h : ∀ c ∈ chunks20 descs, llm c = .raises ∨ llm c = .response none) :
    categorize_descriptions strFloat llm descs = fallbackList descs ∧
      (categorize_descriptions strFloat llm descs).length = descs.length := by
  have hmain : categorize_descriptions strFloat llm descs = fallbackList descs := by
    unfold categorize_descriptions
    by_cases hd : descs.isEmpty
    · rw [if_pos hd, List.isEmpty_iff.mp hd]
      rfl
    · rw [if_neg hd]
      have hbatch : (chunks20 descs).map (categorize_batch strFloat llm)
          = (chunks20 descs).map fallbackList := by
        apply List.map_congr_left
        intro c hc
        apply batch_fallback_of_error
        rcases h c hc with h1 | h1
        · exact Or.inl h1
        · exact Or.inr ⟨none, .jsonDecode, h1, rfl⟩
      rw [hbatch]
      unfold fallbackList
      rw [← List.map_flatten, chunks20_join]
  refine ⟨hmain, ?_⟩
  rw [hmain]
  exact List.length_map descs fallbackEntry

/-- Witness for the amended C1: two concrete descriptions, every call
raising. -/
theorem categorize_total_coverage_on_failures_witness :
    categorize_descriptions witnessStrFloat witnessLLMRaises [S "UBER", S "NETFLIX.COM"] =
        fallbackList [S "UBER", S "NETFLIX.COM"] ∧
      (categorize_descriptions witnessStrFloat witnessLLMRaises
          [S "UBER", S "NETFLIX.COM"]).length = [S "UBER", S "NETFLIX.COM"].length :=
  categorize_total_coverage_on_failures witnessStrFloat witnessLLMRaises
    [S "UBER", S "NETFLIX.COM"] (fun _ _ => Or.inl rfl)

/-- Counterexample to claim C8 as stated: after a first seeding call, a
second /init-categories call inserts 0 rows (it is a no-op) yet its success
response still reports 60, the size of the static taxonomy list, not the
number of rows actually inserted by that call. -/
theorem init_categories_reports_static_count :
    (init_categories 1 seededDB).2.1 = 0 ∧ (init_categories 1 seededDB).2.2 = 60 := by
  constructor <;> rfl

/-- Claim C8 (amended): calling initialize_categories when dim_categories is
already non-empty is a no-op — it inserts nothing and leaves the category
rows unchanged — but the endpoint reports the static taxonomy list size
(60) no matter how many rows were actually inserted. -/
theorem init_categories_idempotent (now : Nat) (db : DB) (h : db.categories ≠ []) :
    (init_categories now db).1.categories = db.categories ∧
      (init_categories now db).2.1 = 0 ∧
      (init_categories now db).2.2 = categories_data.length := by
  have hpos : 0 < db.categories.length := List.length_pos.mpr h
  unfold init_categories initialize_categories
  rw [if_pos hpos]
  exact ⟨rfl, rfl, rfl⟩

/-- Witness for the amended C8: the second call on a seeded dataset. -/
theorem init_categories_idempotent_witness :
    (init_categories 1 seededDB).1.categories = seededDB.categories ∧
      (init_categories 1 seededDB).2.1 = 0 ∧
      (init_categories 1 seededDB).2.2 = categories_data.length :=
  init_categories_idempotent 1 seededDB (by decide)

/-- Claim C10: when force_reprocess is false and every supplied file's
content hash is already present in a raw table, process_files returns the
all-zero summary record (in particular processing_time_seconds = 0)
immediately: the dataset is unchanged and the trace is empty — no load, no
transform run, no gap query, no classification, no cache merge. -/
theorem process_files_early_exit (env : Env) (db : DB) (inst : Institution)
    (file_paths : List String)
    (h : ∀ p ∈ file_paths, file_already_processed db (env.fileHash p) = true) :
    process_files env db inst file_paths false =
      { res := .ok zeroResult, db := db, trace := [] } := by
  have hfilter : filterFiles env db file_paths false = [] := by
    unfold filterFiles
    rw [if_neg (by simp)]
    rw [List.filter_eq_nil_iff]
    intro p hp
    simp [h p hp]
  unfold process_files
  rw [hfilter]
  rfl

/-- Witness for C10: re-submitting the already ingested file is a no-op. -/
theorem process_files_early_exit_witness :
    process_files witnessEnv ingestedDB Institution.amex ["a.csv"] false =
      { res := .ok zeroResult, db := ingestedDB, trace := [] } :=
  process_files_early_exit witnessEnv ingestedDB Institution.amex ["a.csv"] (by decide)

/-- When every file of the list parses and loads cleanly, the loading phase
succeeds and its trace holds load events only. -/
theorem loadPhase_ok_of_parses (env : Env) (inst : Institution) :
    ∀ (files : List String) (db : DB),
      (∀ p ∈ files, ∃ rows, env.parseRows p = .ok rows) →
      ∃ n db2 tr, loadPhase env inst db files = (.ok n, db2, tr) ∧
        ∀ ef ∈ tr, ∃ q m, ef = Effect.load q m := by
  intro files
  induction files with
  | nil =>
    intro db _
    exact ⟨0, db, [], rfl, by simp⟩
  | cons p rest ih =>
    intro db h
    obtain ⟨rows, hrows⟩ := h p (by simp)
    obtain ⟨n, db2, tr, hrec, htr⟩ :=
      ih (load_raw_data db inst (rows.map (mkRawRow p (env.fileHash p)))).1
        (fun q hq => h q (by simp [hq]))
    refine ⟨(load_raw_data db inst (rows.map (mkRawRow p (env.fileHash p)))).2 + n, db2,
      Effect.load p (load_raw_data db inst (rows.map (mkRawRow p (env.fileHash p)))).2 :: tr,
      ?_, ?_⟩
    · simp only [loadPhase, hrows, hrec]
    · intro ef hef
      rcases List.mem_cons.mp hef with hh | hh
      · exact ⟨p, _, hh⟩
      · exact htr ef hh

/-- Claim C7: a dbt failure in the staging or final transform step, or an
error raised while parsing or loading a file's rows, propagates out of
process_files and fails the run — and the failing staging selection was
invoked exactly once, with no automatic retry; by contrast, when loading
and both transform steps succeed, process_files returns a summary record
whatever the LLM call does, so a classification failure alone never makes
the run raise. -/
theorem transform_failure_fatal_classification_absorbed :
    (∀ (env : Env) (db : DB) (inst : Institution) (paths : List String) (force : Bool)
        (e : String),
      filterFiles env db paths force ≠ [] →
      (∀ p ∈ filterFiles env db paths force, ∃ rows, env.parseRows p = .ok rows) →
      env.dbtDeps = .ok () →
      env.dbtRun "staging" = .error e →
      (process_files env db inst paths force).res = .error e ∧
        (process_files env db inst paths force).trace.count (Effect.dbtCmd "staging") = 1) ∧
    (∀ (env : Env) (db : DB) (inst : Institution) (paths : List String) (force : Bool)
        (mS : Nat) (e : String),
      filterFiles env db paths force ≠ [] →
      (∀ p ∈ filterFiles env db paths force, ∃ rows, env.parseRows p = .ok rows) →
      (run_dbt_models env ["staging"]).1 = .ok mS →
      (run_dbt_models env ["intermediate", "marts"]).1 = .error e →
      (process_files env db inst paths force).res = .error e) ∧
    (∀ (env : Env) (db : DB) (inst : Institution) (paths : List String) (force : Bool)
        (e : String),
      filterFiles env db paths force ≠ [] →
      (loadPhase env inst db (filterFiles env db paths force)).1 = .error e →
      (process_files env db inst paths force).res = .error e) ∧
    (∀ (env : Env) (db : DB) (inst : Institution) (paths : List String) (force : Bool)
        (mS mF : Nat),
      (∀ p ∈ filterFiles env db paths force, ∃ rows, env.parseRows p = .ok rows) →
      (run_dbt_models env ["staging"]).1 = .ok mS →
      (run_dbt_models env ["intermediate", "marts"]).1 = .ok mF →
      ∃ r, (process_files env db inst paths force).res = .ok r) := by
  refine ⟨?_, ?_, ?_, ?_⟩
  · intro env db inst paths force e hne hparse hdeps hstag
    obtain ⟨n, db1, tr1, hload, htr⟩ :=
      loadPhase_ok_of_parses env inst (filterFiles env db paths force) db hparse
    have hie : (filterFiles env db paths force).isEmpty = false :=
      List.isEmpty_eq_false.mpr hne
    have hrun : run_dbt_models env ["staging"] = (.error e, [Effect.dbtCmd "staging"]) := by
      unfold run_dbt_models
      rw [hdeps]
      unfold runDbtList
      rw [hstag]
    have hcount : tr1.count (Effect.dbtCmd "staging") = 0 := by
      rw [List.count_eq_zero]
      intro hmem
      obtain ⟨q, m, hqm⟩ := htr _ hmem
      cases hqm
    have hout : process_files env db inst paths force =
        { res := .error e, db := db1, trace := tr1 ++ [Effect.dbtCmd "staging"] } := by
      simp only [process_files, hie, Bool.false_eq_true, if_false, hload, hrun]
    rw [hout]
    refine ⟨rfl, ?_⟩
    simp [List.count_append, hcount]
  · intro env db inst paths force mS e hne hparse hstagok hfin
    obtain ⟨n, db1, tr1, hload, htr⟩ :=
      loadPhase_ok_of_parses env inst (filterFiles env db paths force) db hparse
    have hie : (filterFiles env db paths force).isEmpty = false :=
      List.isEmpty_eq_false.mpr hne
    cases hS : run_dbt_models env ["staging"] with
    | mk r1 t1 =>
      rw [hS] at hstagok
      simp only at hstagok
      subst hstagok
      cases hF : run_dbt_models env ["intermediate", "marts"] with
      | mk r2 t2 =>
        rw [hF] at hfin
        simp only at hfin
        subst hfin
        simp only [process_files, hie, Bool.false_eq_true, if_false, hload, hS, hF]
  · intro env db inst paths force e hne hloadfail
    have hie : (filterFiles env db paths force).isEmpty = false :=
      List.isEmpty_eq_false.mpr hne
    cases hL : loadPhase env inst db (filterFiles env db paths force) with
    | mk r1 rest =>
      cases rest with
      | mk db1 tr1 =>
        rw [hL] at hloadfail
        simp only at hloadfail
        subst hloadfail
        simp only [process_files, hie, Bool.false_eq_true, if_false, hL]
  · intro env db inst paths force mS mF hparse hstagok hfin
    by_cases hne : filterFiles env db paths force = []
    · refine ⟨zeroResult, ?_⟩
      simp only [process_files, hne, List.isEmpty_nil, if_true]
    · obtain ⟨n, db1, tr1, hload, htr⟩ :=
        loadPhase_ok_of_parses env inst (filterFiles env db paths force) db hparse
      have hie : (filterFiles env db paths force).isEmpty = false :=
        List.isEmpty_eq_false.mpr hne
      cases hS : run_dbt_models env ["staging"] with
      | mk r1 t1 =>
        rw [hS] at hstagok
        simp only at hstagok
        subst hstagok
        cases hF : run_dbt_models env ["intermediate", "marts"] with
        | mk r2 t2 =>
          rw [hF] at hfin
          simp only at hfin
          subst hfin
          refine ⟨{ files_processed := (filterFiles env db paths force).length
                    rows_inserted := n
                    new_categories := (enrichPhase env db1).2.1
                    dbt_models_built := mF
                    processing_time_seconds := env.elapsed }, ?_⟩
          simp only [process_files, hie, Bool.false_eq_true, if_false, hload, hS, hF]

/-- The database a cons step of the loading phase ends with is the database
the remaining files end with, starting from the current file's append. -/
theorem loadPhase_cons_db (env : Env) (inst : Institution) (db : DB) (p : String)
    (rest : List String) (rows : List ParsedRow) (hrows : env.parseRows p = .ok rows) :
    (loadPhase env inst db (p :: rest)).2.1 =
      (loadPhase env inst
        (load_raw_data db inst (rows.map (mkRawRow p (env.fileHash p)))).1 rest).2.1 := by
  simp only [loadPhase, hrows]
  rcases loadPhase env inst
      (load_raw_data db inst (rows.map (mkRawRow p (env.fileHash p)))).1 rest with ⟨r1, db2, tr⟩
  cases r1 <;> rfl

/-- The loading phase only appends to the raw tables and leaves the cache
and the taxonomy untouched, whether it succeeds or not. -/
theorem loadPhase_tables (env : Env) (inst : Institution) :
    ∀ (files : List String) (db : DB),
      (∃ xa, (loadPhase env inst db files).2.1.amexRows = db.amexRows ++ xa) ∧
      (∃ xw, (loadPhase env inst db files).2.1.wsRows = db.wsRows ++ xw) ∧
      (loadPhase env inst db files).2.1.cache = db.cache ∧
      (loadPhase env inst db files).2.1.categories = db.categories := by
  intro files
  induction files with
  | nil =>
    intro db
    exact ⟨⟨[], by simp [loadPhase]⟩, ⟨[], by simp [loadPhase]⟩, rfl, rfl⟩
  | cons p rest ih =>
    intro db
    cases hrows : env.parseRows p with
    | error e =>
      refine ⟨⟨[], by simp [loadPhase, hrows]⟩, ⟨[], by simp [loadPhase, hrows]⟩, ?_, ?_⟩ <;>
        simp [loadPhase, hrows]
    | ok rows =>
      obtain ⟨⟨xa, ha⟩, ⟨xw, hw⟩, hc, hg⟩ :=
        ih (load_raw_data db inst (rows.map (mkRawRow p (env.fileHash p)))).1
      rw [loadPhase_cons_db env inst db p rest rows hrows]
      cases inst with
      | amex =>
        refine ⟨⟨rows.map (mkRawRow p (env.fileHash p)) ++ xa, ?_⟩, ⟨xw, ?_⟩, ?_, ?_⟩
        · rw [ha]
          simp [load_raw_data]
        · rw [hw]
          simp [load_raw_data]
        · rw [hc]
          simp [load_raw_data]
        · rw [hg]
          simp [load_raw_data]
      | wealthsimple =>
        refine ⟨⟨xa, ?_⟩, ⟨rows.map (mkRawRow p (env.fileHash p)) ++ xw, ?_⟩, ?_, ?_⟩
        · rw [ha]
          simp [load_raw_data]
        · rw [hw]
          simp [load_raw_data]
        · rw [hc]
          simp [load_raw_data]
        · rw [hg]
          simp [load_raw_data]

/-- A fingerprint found in the raw tables stays found after rows are
appended to them. -/
theorem present_append (db db2 : DB) (fh : String)
    (ha : ∃ xa, db2.amexRows = db.amexRows ++ xa) (hw : ∃ xw, db2.wsRows = db.wsRows ++ xw)
    (hp : file_already_processed db fh = true) : file_already_processed db2 fh = true := by
  obtain ⟨xa, ha⟩ := ha
  obtain ⟨xw, hw⟩ := hw
  unfold file_already_processed at *
  rw [decide_eq_true_iff] at *
  rw [ha, hw, List.filter_append, List.filter_append, List.length_append, List.length_append]
  omega

/-- Appending a non-empty batch of rows stamped with a fingerprint makes
that fingerprint found. -/
theorem present_after_load (db : DB) (inst : Institution) (p : String) (fh : String)
    (rows : List ParsedRow) (hne : rows ≠ []) :
    file_already_processed (load_raw_data db inst (rows.map (mkRawRow p fh))).1 fh = true := by
  cases rows with
  | nil => cases hne rfl
  | cons r0 rs =>
    apply (mem_file_already_processed _ _).mpr
    cases inst with
    | amex =>
      left
      exact ⟨mkRawRow p fh r0, by simp [load_raw_data], rfl⟩
    | wealthsimple =>
      right
      exact ⟨mkRawRow p fh r0, by simp [load_raw_data], rfl⟩

/-- A successful loading phase parsed every file of its list. -/
theorem loadPhase_ok_parses_all (env : Env) (inst : Institution) :
    ∀ (files : List String) (db : DB) (n : Nat),
      (loadPhase env inst db files).1 = .ok n →
      ∀ p ∈ files, ∃ rows, env.parseRows p = .ok rows := by
  intro files
  induction files with
  | nil =>
    intro db n _ p hp
    simp at hp
  | cons q rest ih =>
    intro db n hok p hp
    cases hrows : env.parseRows q with
    | error e =>
      simp [loadPhase, hrows] at hok
    | ok qrows =>
      rcases List.mem_cons.mp hp with rfl | hmem
      · exact ⟨qrows, hrows⟩
      · rcases hL2 : loadPhase env inst
            (load_raw_data db inst (qrows.map (mkRawRow q (env.fileHash q)))).1 rest
          with ⟨r2, db2, tr2⟩
        cases r2 with
        | error e =>
          simp [loadPhase, hrows, hL2] at hok
        | ok m =>
          exact ih _ m (by rw [hL2]) p hmem

/-- After a successful loading phase, every file of the list that parsed to
at least one row has its fingerprint in the raw tables. -/
theorem loadPhase_present (env : Env) (inst : Institution) :
    ∀ (files : List String) (db : DB) (n : Nat),
      (loadPhase env inst db files).1 = .ok n →
      ∀ p ∈ files, ∀ rows, env.parseRows p = .ok rows → rows ≠ [] →
        file_already_processed (loadPhase env inst db files).2.1 (env.fileHash p) = true := by
  intro files
  induction files with
  | nil =>
    intro db n _ p hp
    simp at hp
  | cons q rest ih =>
    intro db n hok p hp rows hrows hne
    cases hqrows : env.parseRows q with
    | error e =>
      simp [loadPhase, hqrows] at hok
    | ok qrows =>
      have hdbeq := loadPhase_cons_db env inst db q rest qrows hqrows
      rcases hL2 : loadPhase env inst
          (load_raw_data db inst (qrows.map (mkRawRow q (env.fileHash q)))).1 rest
        with ⟨r2, db2, tr2⟩
      have hdb2 : (loadPhase env inst db (q :: rest)).2.1 = db2 := by
        rw [hdbeq, hL2]
      cases r2 with
      | error e =>
        simp [loadPhase, hqrows, hL2] at hok
      | ok m =>
        rcases List.mem_cons.mp hp with rfl | hmem
        · have hq : qrows = rows := by
            rw [hrows] at hqrows
            exact (Except.ok.inj hqrows).symm
          subst hq
          have hbase := present_after_load db inst p (env.fileHash p) qrows hne
          have := loadPhase_tables env inst rest
            (load_raw_data db inst (qrows.map (mkRawRow p (env.fileHash p)))).1
          obtain ⟨hxa, hxw, _, _⟩ := this
          rw [hL2] at hxa hxw
          rw [hdb2]
          exact present_append _ db2 (env.fileHash p) hxa hxw hbase
        · have := ih _ m (by rw [hL2]) p hmem rows hrows hne
          rw [hL2] at this
          rw [hdb2]
          exact this

/-- The enrichment phase only touches the cache: raw tables pass through. -/
theorem enrichPhase_raw (env : Env) (db : DB) :
    (enrichPhase env db).1.amexRows = db.amexRows ∧ (enrichPhase env db).1.wsRows = db.wsRows := by
  unfold enrichPhase
  by_cases hg : (get_uncategorized_descriptions db).isEmpty
  · rw [if_pos hg]
    exact ⟨rfl, rfl⟩
  · rw [if_neg hg]
    dsimp only
    refine ⟨?_, ?_⟩ <;>
      · by_cases hn : (categorize_descriptions env.strFloat env.llm
            (get_uncategorized_descriptions db)).isEmpty = true
        · simp [update_category_cache, hn]
        · simp [update_category_cache, hn]

/-- Counterexample to claim C4 as stated: a file that parses to zero rows is
counted as processed by the first run but leaves no fingerprint in any raw
table, so a second run with the same list processes it again — both runs
succeed with files_processed = 1, and the second one does not return 0. -/
theorem process_files_not_idempotent_on_empty_file :
    (process_files witnessEnv emptyDB Institution.amex ["e.csv"] false).res.map
        PResult.files_processed = Except.ok 1 ∧
      (process_files witnessEnv
          (process_files witnessEnv emptyDB Institution.amex ["e.csv"] false).db
          Institution.amex ["e.csv"] false).res.map PResult.files_processed = Except.ok 1 := by
  constructor <;> rfl

/-- Claim C4 (amended): after a successful run of process_files with
force_reprocess = false in which every supplied file parses to at least one
row, a second run with the same file list and force_reprocess = false
returns files_processed = 0 and rows_inserted = 0: every file's content
hash is then present in a raw table and is filtered out before loading.
(Without the at-least-one-row proviso the claim fails, see the
counterexample: a zero-row file leaves no fingerprint behind.) -/
theorem process_files_idempotent (env : Env) (db : DB) (inst : Institution)
    (paths : List String) (r1 : PResult)
    (hrun1 : (process_files env db inst paths false).res = .ok r1)
    (hnonempty : ∀ p ∈ paths, ∀ rows, env.parseRows p = .ok rows → rows ≠ []) :
    ∃ r2, (process_files env (process_files env db inst paths false).db inst paths false).res
        = .ok r2 ∧
      r2.files_processed = 0 ∧ r2.rows_inserted = 0 := by
  by_cases hfe : filterFiles env db paths false = []
  · have hout : process_files env db inst paths false =
        { res := .ok zeroResult, db := db, trace := [] } := by
      simp only [process_files, hfe, List.isEmpty_nil, if_true]
    refine ⟨zeroResult, ?_, rfl, rfl⟩
    rw [show (process_files env db inst paths false).db = db from by rw [hout]]
    rw [hout]
  · have hie : (filterFiles env db paths false).isEmpty = false :=
      List.isEmpty_eq_false.mpr hfe
    rcases hL : loadPhase env inst db (filterFiles env db paths false) with ⟨rL, db1, tr1⟩
    cases rL with
    | error e =>
      have : (process_files env db inst paths false).res = .error e := by
        simp only [process_files, hie, Bool.false_eq_true, if_false, hL]
      rw [this] at hrun1
      cases hrun1
    | ok n =>
      rcases hS : run_dbt_models env ["staging"] with ⟨rS, tS⟩
      cases rS with
      | error e =>
        have : (process_files env db inst paths false).res = .error e := by
          simp only [process_files, hie, Bool.false_eq_true, if_false, hL, hS]
        rw [this] at hrun1
        cases hrun1
      | ok mS =>
        rcases hF : run_dbt_models env ["intermediate", "marts"] with ⟨rF, tF⟩
        cases rF with
        | error e =>
          have : (process_files env db inst paths false).res = .error e := by
            simp only [process_files, hie, Bool.false_eq_true, if_false, hL, hS, hF]
          rw [this] at hrun1
          cases hrun1
        | ok mF =>
          have hdb1 : (loadPhase env inst db (filterFiles env db paths false)).2.1 = db1 := by
            rw [hL]
          have hdbout : (process_files env db inst paths false).db = (enrichPhase env db1).1 := by
            simp only [process_files, hie, Bool.false_eq_true, if_false, hL, hS, hF]
          have hraw := enrichPhase_raw env db1
          have hpresent : ∀ p ∈ paths,
              file_already_processed (enrichPhase env db1).1 (env.fileHash p) = true := by
            intro p hp
            have hstep : file_already_processed db1 (env.fileHash p) = true := by
              by_cases hmem : p ∈ filterFiles env db paths false
              · obtain ⟨rows, hrows⟩ :=
                  loadPhase_ok_parses_all env inst (filterFiles env db paths false) db n
                    (by rw [hL]) p hmem
                have hner := hnonempty p hp rows hrows
                have := loadPhase_present env inst (filterFiles env db paths false) db n
                  (by rw [hL]) p hmem rows hrows hner
                rwa [hdb1] at this
              · have hpres0 : file_already_processed db (env.fileHash p) = true := by
                  by_contra hcon
                  apply hmem
                  simp only [filterFiles, Bool.false_eq_true, if_false]
                  rw [List.mem_filter]
                  exact ⟨hp, by simp [Bool.eq_false_iff.mpr hcon]⟩
                obtain ⟨hxa, hxw, _, _⟩ :=
                  loadPhase_tables env inst (filterFiles env db paths false) db
                rw [hdb1] at hxa hxw
                exact present_append db db1 (env.fileHash p) hxa hxw hpres0
            exact present_append db1 (enrichPhase env db1).1 (env.fileHash p)
              ⟨[], by simp [hraw.1]⟩ ⟨[], by simp [hraw.2]⟩ hstep
          have hfilter2 : filterFiles env (enrichPhase env db1).1 paths false = [] := by
            simp only [filterFiles, Bool.false_eq_true, if_false]
            rw [List.filter_eq_nil_iff]
            intro p hp
            simp [hpresent p hp]
          rw [hdbout]
          refine ⟨zeroResult, ?_, rfl, rfl⟩
          simp only [process_files, hfilter2, List.isEmpty_nil, if_true]

/-- Witness for the amended C4: a one-file, one-row ingestion re-run
returns the zero record. -/
theorem process_files_idempotent_witness :
    ∃ r2, (process_files oneRowEnv
        (process_files oneRowEnv emptyDB Institution.amex ["f.csv"] false).db
        Institution.amex ["f.csv"] false).res = .ok r2 ∧
      r2.files_processed = 0 ∧ r2.rows_inserted = 0 :=
  process_files_idempotent oneRowEnv emptyDB Institution.amex ["f.csv"]
    { files_processed := 1, rows_inserted := 1, new_categories := 1
      dbt_models_built := 2, processing_time_seconds := 3 }
    (by rfl)
    (by
      intro p hp rows hrows
      cases hrows
      simp)

/-- The records the parse loop emits carry the normalized keys of the zipped
descriptions, in order. -/
theorem buildResults_keys (strFloat : Str → Option Rat) :
    ∀ (pairs : List (Str × Json)) (rs : List CacheEntry),
      buildResults strFloat pairs = .ok rs →
      rs.map (fun e => e.description_key) = pairs.map fun pr => pyNormalize pr.1 := by
  intro pairs
  induction pairs with
  | nil =>
    intro rs h
    cases h
    rfl
  | cons pr rest ih =>
    intro rs h
    obtain ⟨desc, cat⟩ := pr
    cases cat with
    | obj fields =>
      simp only [buildResults] at h
      cases hf : pyFloat strFloat (jget fields (S "confidence_score") (Json.num 0)) with
      | error e =>
        rw [hf] at h
        cases h
      | ok conf =>
        rw [hf] at h
        cases hr : buildResults strFloat rest with
        | error e =>
          rw [hr] at h
          cases h
        | ok tail =>
          rw [hr] at h
          cases h
          simp only [List.map_cons]
          rw [ih tail hr]
    | null => cases h
    | bool b => cases h
    | num q => cases h
    | str s => cases h
    | arr xs => cases h

/-- Zipping with the decoded array keeps the first take of the
descriptions. -/
theorem zip_keys_take :
    ∀ (c : List Str) (cats : List Json),
      ((c.zip cats).map fun pr => pyNormalize pr.1) = (c.take cats.length).map pyNormalize := by
  intro c
  induction c with
  | nil =>
    intro cats
    simp
  | cons d ds ih =>
    intro cats
    cases cats with
    | nil => simp
    | cons x xs => simp [ih xs]

/-- Whatever one chunk call returns, its records carry normalized keys
drawn one-per-description, in order, from the chunk: the key list is a
sublist of the chunk's normalized key list. -/
theorem batch_keys_sublist (strFloat : Str → Option Rat) (llm : List Str → LLMResult)
    (c : List Str) :
    ((categorize_batch strFloat llm c).map fun e => e.description_key).Sublist
      (c.map pyNormalize) := by
  have hfall : ((fallbackList c).map fun e => e.description_key) = c.map pyNormalize := by
    unfold fallbackList
    rw [List.map_map]
    rfl
  unfold categorize_batch
  cases llm c with
  | raises =>
    rw [hfall]
  | response dec =>
    have hparse : ∀ rs, parse_gemini_response strFloat dec c = .ok rs →
        (rs.map fun e => e.description_key).Sublist (c.map pyNormalize) := by
      intro rs hok
      unfold parse_gemini_response at hok
      cases hA : parseAttempt strFloat dec c with
      | ok rs0 =>
        rw [hA] at hok
        dsimp only at hok
        cases hok
        unfold parseAttempt at hA
        cases dec with
        | none =>
          dsimp only at hA
          cases hA
        | some j =>
          dsimp only at hA
          cases hI : jsonIter j with
          | error e =>
            rw [hI] at hA
            dsimp only at hA
            cases hA
          | ok cats =>
            rw [hI] at hA
            dsimp only at hA
            rw [buildResults_keys strFloat (c.zip cats) rs hA, zip_keys_take]
            exact (List.take_sublist cats.length c).map pyNormalize
      | error e =>
        rw [hA] at hok
        dsimp only at hok
        by_cases hc : caughtByParse e = true
        · rw [if_pos hc] at hok
          cases hok
          rw [hfall]
        · rw [if_neg hc] at hok
          cases hok
    dsimp only
    cases hp : parse_gemini_response strFloat dec c with
    | ok rs =>
      dsimp only
      exact hparse rs hp
    | error e =>
      dsimp only
      rw [hfall]

/-- Chunk results concatenate into a sublist of the normalized keys of the
whole input. -/
theorem categorize_keys_sublist (strFloat : Str → Option Rat) (llm : List Str → LLMResult)
    (l : List Str) :
    ((categorize_descriptions strFloat llm l).map fun e => e.description_key).Sublist
      (l.map pyNormalize) := by
  unfold categorize_descriptions
  by_cases hl : l.isEmpty
  · rw [if_pos hl]
    simp
  · rw [if_neg hl]
    have general : ∀ L : List (List Str),
        ((L.map (categorize_batch strFloat llm)).flatten.map fun e => e.description_key).Sublist
          ((L.map (List.map pyNormalize)).flatten) := by
      intro L
      induction L with
      | nil => simp
      | cons c cs ih =>
        simp only [List.map_cons, List.flatten_cons, List.map_append]
        exact (batch_keys_sublist strFloat llm c).append ih
    have := general (chunks20 l)
    have hflat : ((chunks20 l).map (List.map pyNormalize)).flatten = l.map pyNormalize := by
      rw [← List.map_flatten, chunks20_join]
    rwa [hflat] at this

/-- Every returned gap key is an unmatched gap key (the LIMIT only
shortens). -/
theorem gap_limit_subset {db : DB} {k : Str} (h : k ∈ get_uncategorized_descriptions db) :
    k ∈ gapUncached db := by
  unfold get_uncategorized_descriptions at h
  exact (List.perm_insertionSort strPle (gapUncached db)).mem_iff.mp
    ((List.take_sublist 100 _).subset h)

/-- The gap query returns pairwise distinct keys. -/
theorem gap_nodup (db : DB) : (get_uncategorized_descriptions db).Nodup := by
  have hnodupU : (gapUncached db).Nodup := (List.nodup_dedup _).filter _
  exact (List.take_sublist 100 _).nodup
    ((List.perm_insertionSort strPle (gapUncached db)).symm.nodup hnodupU)

/-- Gap keys are normalization fixed points for both the SQL and the Python
normalization. -/
theorem gap_key_norm {db : DB} {k : Str} (h : k ∈ get_uncategorized_descriptions db) :
    sqlNormalize k = k ∧ pyNormalize k = k := by
  obtain ⟨⟨r, d, _, _, _, hk⟩, _⟩ := mem_gapUncached.mp (gap_limit_subset h)
  rw [← hk]
  exact ⟨sqlNormalize_idem d, pyNormalize_sqlNormalize d⟩

/-- No cache entry normalizes to a returned gap key. -/
theorem gap_not_cached {db : DB} {k : Str} (h : k ∈ get_uncategorized_descriptions db) :
    ∀ c ∈ db.cache, sqlNormalize c.description_key ≠ k :=
  (mem_gapUncached.mp (gap_limit_subset h)).2

/-- The enrichment phase preserves cache-key uniqueness: merged entries
carry pairwise distinct keys drawn from the gap, which excludes every key
already cached. -/
theorem enrichPhase_cache_nodup (env : Env) (db : DB) (h : cacheKeysNodup db) :
    cacheKeysNodup (enrichPhase env db).1 := by
  unfold enrichPhase
  by_cases hg : (get_uncategorized_descriptions db).isEmpty
  · rw [if_pos hg]
    exact h
  · rw [if_neg hg]
    dsimp only
    by_cases hn : (categorize_descriptions env.strFloat env.llm
        (get_uncategorized_descriptions db)).isEmpty = true
    · simp only [update_category_cache, hn, if_true]
      exact h
    · simp only [update_category_cache, hn, Bool.false_eq_true, if_false]
      unfold cacheKeysNodup
      dsimp only
      rw [List.map_append, List.map_map]
      have hkeys : ((categorize_descriptions env.strFloat env.llm
            (get_uncategorized_descriptions db)).map fun e => e.description_key).Sublist
          ((get_uncategorized_descriptions db).map pyNormalize) :=
        categorize_keys_sublist _ _ _
      have hfix : (get_uncategorized_descriptions db).map pyNormalize =
          get_uncategorized_descriptions db := by
        have heq : (get_uncategorized_descriptions db).map pyNormalize =
            (get_uncategorized_descriptions db).map id :=
          List.map_congr_left fun k hk => (gap_key_norm hk).2
        rw [heq, List.map_id]
      rw [hfix] at hkeys
      have hnewmap : ((categorize_descriptions env.strFloat env.llm
            (get_uncategorized_descriptions db)).map
              ((fun c => sqlNormalize c.description_key) ∘ fun c =>
                { description_key := c.description_key
                  original_description := c.original_description
                  general_category := c.general_category
                  detailed_category := c.detailed_category
                  confidence_score := c.confidence_score
                  gemini_model_version := c.gemini_model_version
                  created_at := env.now
                  updated_at := env.now : CacheRow }))
          = (categorize_descriptions env.strFloat env.llm
              (get_uncategorized_descriptions db)).map fun e => e.description_key := by
        apply List.map_congr_left
        intro x hx
        have hxk : x.description_key ∈ get_uncategorized_descriptions db :=
          hkeys.subset (List.mem_map.mpr ⟨x, hx, rfl⟩)
        exact (gap_key_norm hxk).1
      rw [hnewmap]
      refine List.Nodup.append h (hkeys.nodup (gap_nodup db)) ?_
      intro x hxold hxnew
      have hxgap : x ∈ get_uncategorized_descriptions db := hkeys.subset hxnew
      obtain ⟨cr, hcr, hcx⟩ := List.mem_map.mp hxold
      exact gap_not_cached hxgap cr hcr hcx

/-- Claim C5: a single sequential pipeline run preserves category-cache key
uniqueness: if at most one cache entry per DescriptionKey exists before the
run, the same holds after it — the merger appends blindly, but every merged
key comes from the gap query (distinct, already-cached keys excluded) and
passes unchanged through the classifier's upper-case/strip normalization,
so no present key is re-inserted and no key is inserted twice. -/
theorem cache_key_uniqueness_preserved (env : Env) (db : DB) (inst : Institution)
    (paths : List String) (force : Bool) (h : cacheKeysNodup db) :
    cacheKeysNodup (process_files env db inst paths force).db := by
  by_cases hfe : filterFiles env db paths force = []
  · have hout : process_files env db inst paths force =
        { res := .ok zeroResult, db := db, trace := [] } := by
      simp only [process_files, hfe, List.isEmpty_nil, if_true]
    rw [hout]
    exact h
  · have hie := List.isEmpty_eq_false.mpr hfe
    rcases hL : loadPhase env inst db (filterFiles env db paths force) with ⟨rL, db1, tr1⟩
    have hdb1cache : db1.cache = db.cache := by
      have := (loadPhase_tables env inst (filterFiles env db paths force) db).2.2.1
      rwa [hL] at this
    have h1 : cacheKeysNodup db1 := by
      unfold cacheKeysNodup
      rw [hdb1cache]
      exact h
    cases rL with
    | error e =>
      have hout : (process_files env db inst paths force).db = db1 := by
        simp only [process_files, hie, Bool.false_eq_true, if_false, hL]
      rw [hout]
      exact h1
    | ok n =>
      rcases hS : run_dbt_models env ["staging"] with ⟨rS, tS⟩
      cases rS with
      | error e =>
        have hout : (process_files env db inst paths force).db = db1 := by
          simp only [process_files, hie, Bool.false_eq_true, if_false, hL, hS]
        rw [hout]
        exact h1
      | ok mS =>
        rcases hF : run_dbt_models env ["intermediate", "marts"] with ⟨rF, tF⟩
        have henr := enrichPhase_cache_nodup env db1 h1
        cases rF with
        | error e =>
          have hout : (process_files env db inst paths force).db = (enrichPhase env db1).1 := by
            simp only [process_files, hie, Bool.false_eq_true, if_false, hL, hS, hF]
          rw [hout]
          exact henr
        | ok mF =>
          have hout : (process_files env db inst paths force).db = (enrichPhase env db1).1 := by
            simp only [process_files, hie, Bool.false_eq_true, if_false, hL, hS, hF]
          rw [hout]
          exact henr

/-- Witness for C5: a full one-file run against the empty dataset keeps the
cache keys unique. -/
theorem cache_key_uniqueness_preserved_witness :
    cacheKeysNodup (process_files oneRowEnv emptyDB Institution.amex ["g.csv"] false).db :=
  cache_key_uniqueness_preserved oneRowEnv emptyDB Institution.amex ["g.csv"] false
    (by unfold cacheKeysNodup; decide)

end MoneyMirror
